import Mathlib

/-!
Shallow embedding of RedoxPySolid (C++ sources: redoxKinetics.cpp, cv.cpp,
swv.cpp, include/definitions.h).

Modelling conventions:
* C `double` values are modelled as rationals (`ℚ`); the transcendental
  `exp` from `<cmath>` is abstracted as an explicit function parameter
  `aexp : ℚ → ℚ`, so every definition stays computable.  All constants in
  `definitions.h` are exact decimal literals, hence exact rationals.
* C arrays (`double*`) are modelled as total functions `ℕ → ℚ`.  The code
  performs out-of-bounds reads (index `lenOfPulseSequence` of arrays of
  that length); reading past the end of a freshly `new`-allocated array
  yields an indeterminate value, which we model by threading an explicit
  `UninitMem` record of arbitrary initial contents, one per allocation.
  Every loop writes exactly the indices the C code writes, so the cell at
  index `lenOfPulseSequence` of each working array keeps its arbitrary
  initial content, exactly as the heap cell does in the C program.
* `int` is modelled as `ℤ`; the `double → int` conversions (`ceil` result,
  the `z` argument of `startingRedConcentration`) truncate toward zero.
-/

namespace RedoxPySolid

/-! ### Constants (include/definitions.h) -/

def r : ℚ := 8.3145
def t : ℚ := 295.0
def rt : ℚ := r * t
def f : ℚ := 96485.0
def FbyRT : ℚ := f / rt
def ln2 : ℚ := 0.69314718056

/-- C truncation of a `double` toward zero, as used by the implicit
`double → int` conversion. -/
def truncTowardZero (q : ℚ) : ℤ :=
  if 0 ≤ q then ⌊q⌋ else ⌈q⌉

/-! ### cv.cpp : DLC-corrected sweep sequence and capacitive current -/

/-- `decayTerm` of `dlcCorrectedCVsequence` (cv.cpp line 65):
`1 - exp(-(timeIncrement / (resistance * capacitance)))`. -/
def cvDecayTerm (aexp : ℚ → ℚ) (resistance capacitance timeIncrement : ℚ) : ℚ :=
  1 - aexp (-(timeIncrement / (resistance * capacitance)))

/-- `dlcCorrectedCVsequence` (cv.cpp lines 59-74): first-order RC recurrence
applied to the raw sweep sequence. -/
def dlcCorrectedCVsequence (aexp : ℚ → ℚ)
    (resistance capacitance timeIncrement : ℚ)
    (inputCVsequence : ℕ → ℚ) : ℕ → ℚ
  | 0 => inputCVsequence 0
  | i + 1 =>
      dlcCorrectedCVsequence aexp resistance capacitance timeIncrement inputCVsequence i
        + (inputCVsequence (i + 1)
            - dlcCorrectedCVsequence aexp resistance capacitance timeIncrement inputCVsequence i)
          * cvDecayTerm aexp resistance capacitance timeIncrement

/-- `dlcCurrentCV` (cv.cpp lines 76-88): capacitive current from the raw and
corrected sequences. -/
def dlcCurrentCV (resistance : ℚ) (rawCV DLCcorrectedCV : ℕ → ℚ) : ℕ → ℚ :=
  fun i => (rawCV i - DLCcorrectedCV i) / resistance

/-! ### swv.cpp : DLC-corrected pulse sequence and capacitive current -/

/-- `decayTerm` of `swvDLCCorrectedInputArray` (swv.cpp line 70):
`1 - exp(-(pulse_time/npp) / (resistance * capacitance))`. -/
def swvDecayTerm (aexp : ℚ → ℚ) (pulse_time resistance capacitance : ℚ)
    (npp : ℤ) : ℚ :=
  1 - aexp (-(pulse_time / (npp : ℚ)) / (resistance * capacitance))

/-- `swvDLCCorrectedInputArray` (swv.cpp lines 59-82): the same first-order
recurrence, with time increment `pulse_time/npp`. -/
def swvDLCCorrectedInputArray (aexp : ℚ → ℚ)
    (pulse_time resistance capacitance : ℚ)
    (inputSignal : ℕ → ℚ) (npp : ℤ) : ℕ → ℚ
  | 0 => inputSignal 0
  | i + 1 =>
      swvDLCCorrectedInputArray aexp pulse_time resistance capacitance inputSignal npp i
        + (inputSignal (i + 1)
            - swvDLCCorrectedInputArray aexp pulse_time resistance capacitance inputSignal npp i)
          * swvDecayTerm aexp pulse_time resistance capacitance npp

/-- `swvDLCcurrent` (swv.cpp lines 84-96). -/
def swvDLCcurrent (resistance : ℚ) (inputSignal dlcCorrectedSignal : ℕ → ℚ) : ℕ → ℚ :=
  fun i => (inputSignal i - dlcCorrectedSignal i) / resistance

/-! ### redoxKinetics.cpp : helper functions (lines 253-271) -/

/-- `startingRedConcentration` (redoxKinetics.cpp lines 253-259):
`componentLoading / (1 + exp(z * FbyRT * overpotential))`. -/
def startingRedConcentration (aexp : ℚ → ℚ)
    (overpotential componentLoading : ℚ) (z : ℤ) : ℚ :=
  componentLoading / (1 + aexp ((z : ℚ) * FbyRT * overpotential))

/-- `instantaneousRedConc` (redoxKinetics.cpp lines 262-271):
`g*Kratio + (red0 - g*Kratio) * exp(-Ksum*time)`. -/
def instantaneousRedConc (aexp : ℚ → ℚ)
    (red0 g kRatioN kSumN time : ℚ) : ℚ :=
  let gKratio := g * kRatioN
  gKratio + (red0 - gKratio) * aexp (-kSumN * time)

/-! ### redoxKinetics.cpp : engine data model -/

/-- One row of the parallel component arrays passed to `redoxKineticsFull`
(`loadingsArray`, `kineticConstArray`, `redoxPotArray`, `symCoefArray`,
`zArray`; all `double*` in the C code). -/
structure RedoxComponent where
  loading : ℚ
  kineticConst : ℚ
  redoxPot : ℚ
  symCoef : ℚ
  z : ℚ

/-- The scalar/array inputs of `redoxKineticsFull`, plus the `exp` model. -/
structure EngineParams where
  aexp : ℚ → ℚ
  timePeriod : ℚ
  resistance : ℚ
  lenOfPulseSequence : ℕ
  inputPulseSequence : ℕ → ℚ
  DLCcorrectedSequence : ℕ → ℚ

/-- Arbitrary initial contents of each freshly `new`-allocated working array
(C gives no guarantee about them; they are observable because the code reads
index `lenOfPulseSequence`, one past the region any loop initializes). -/
structure UninitMem where
  overpotentials0 : ℕ → ℚ
  averaged0 : ℕ → ℚ
  overcorrected0 : ℕ → ℚ
  forwardK0 : ℕ → ℚ
  backwardK0 : ℕ → ℚ
  Ksum0 : ℕ → ℚ
  Kratio0 : ℕ → ℚ
  forwardKhalflife0 : ℕ → ℚ
  backwardKhalflife0 : ℕ → ℚ
  cur0 : ℕ → ℚ

/-- The mutable working arrays of one engine invocation. -/
structure EngineState where
  overpotentials : ℕ → ℚ
  averagedPulseSequence : ℕ → ℚ
  overcorrectedPulseSequence : ℕ → ℚ
  forwardK : ℕ → ℚ
  backwardK : ℕ → ℚ
  Ksum : ℕ → ℚ
  Kratio : ℕ → ℚ
  forwardKhalflife : ℕ → ℚ
  backwardKhalflife : ℕ → ℚ
  cur : ℕ → ℚ

/-- Initial state (redoxKinetics.cpp lines 17-43): `averagedPulseSequence`
and `overcorrectedPulseSequence` are copied from `DLCcorrectedSequence` and
`cur` is zeroed, each on indices `0 ≤ i < lenOfPulseSequence` only; every
other array keeps its indeterminate allocation contents. -/
def initState (P : EngineParams) (h : UninitMem) : EngineState where
  overpotentials := h.overpotentials0
  averagedPulseSequence := fun i =>
    if i < P.lenOfPulseSequence then P.DLCcorrectedSequence i else h.averaged0 i
  overcorrectedPulseSequence := fun i =>
    if i < P.lenOfPulseSequence then P.DLCcorrectedSequence i else h.overcorrected0 i
  forwardK := h.forwardK0
  backwardK := h.backwardK0
  Ksum := h.Ksum0
  Kratio := h.Kratio0
  forwardKhalflife := h.forwardKhalflife0
  backwardKhalflife := h.backwardKhalflife0
  cur := fun i => if i < P.lenOfPulseSequence then 0 else h.cur0 i

/-- `timeBenchmark` (redoxKinetics.cpp line 39): `10 * timePeriod`. -/
def timeBenchmark (P : EngineParams) : ℚ := 10 * P.timePeriod

/-- `positiveScanDirection` (redoxKinetics.cpp line 40): compares
`DLCcorrectedSequence[0]` with `DLCcorrectedSequence[lenOfPulseSequence]`,
i.e. with the element one past the last valid index. -/
def positiveScanDirection (P : EngineParams) : Bool :=
  decide (P.DLCcorrectedSequence 0 > P.DLCcorrectedSequence P.lenOfPulseSequence)

/-! ### Per-component kinetics recompute (redoxKinetics.cpp lines 54-67) -/

/-- Lines 54-67: recompute `overpotentials`, `backwardK`, `forwardK` and the
two half-life arrays on `0 ≤ j < lenOfPulseSequence` from the current
`averagedPulseSequence`. -/
def componentKinetics (P : EngineParams) (c : RedoxComponent)
    (st : EngineState) : EngineState :=
  let N := P.lenOfPulseSequence
  let op : ℕ → ℚ := fun j =>
    if j < N then st.averagedPulseSequence j - c.redoxPot else st.overpotentials j
  let bK : ℕ → ℚ := fun j =>
    if j < N then c.kineticConst * P.aexp (-op j * FbyRT * c.z * (1 - c.symCoef))
    else st.backwardK j
  let fK : ℕ → ℚ := fun j =>
    if j < N then c.kineticConst * P.aexp (op j * FbyRT * c.z * c.symCoef)
    else st.forwardK j
  { st with
    overpotentials := op
    backwardK := bK
    forwardK := fK
    forwardKhalflife := fun j => if j < N then ln2 / fK j else st.forwardKhalflife j
    backwardKhalflife := fun j => if j < N then ln2 / bK j else st.backwardKhalflife j }

/-! ### Window detection (redoxKinetics.cpp lines 45-125) -/

/-- Indices probed by a forward scan `for (j = 0; j < len; j++)`. -/
def forwardProbes (lenOfPulseSequence : ℕ) : List ℕ :=
  List.range lenOfPulseSequence

/-- Indices probed by a backward scan `for (j = len; j > 0; j--)`:
`len, len-1, ..., 1`, in that order. -/
def backwardProbes (lenOfPulseSequence : ℕ) : List ℕ :=
  (List.range' 1 lenOfPulseSequence).reverse

/-- A forward scan (lines 82-90 resp. 104-113): first probed index whose
half-life exceeds the threshold. -/
def forwardScan (lenOfPulseSequence : ℕ) (halflife : ℕ → ℚ) (thr : ℚ) : Option ℕ :=
  (forwardProbes lenOfPulseSequence).find? (fun j => decide (halflife j > thr))

/-- A backward scan (lines 92-100 resp. 115-123): first probed index (probing
from `lenOfPulseSequence` downward) whose half-life exceeds the threshold. -/
def backwardScan (lenOfPulseSequence : ℕ) (halflife : ℕ → ℚ) (thr : ℚ) : Option ℕ :=
  (backwardProbes lenOfPulseSequence).find? (fun j => decide (halflife j > thr))

/-- The three `volatile` lookup flags of lines 48-50 after the `switch` of
lines 78-125. -/
structure Window where
  lookupMinTreshhold : ℕ
  lookupMaxTreshold : ℕ
  LookupThresholdFound : Bool

/-- Lines 48-50 and 78-125: run the direction-dependent forward and backward
scans; a found forward index replaces the initial min bound `0`, a found
backward index replaces the initial max bound `lenOfPulseSequence`, and the
found flag is set when either scan hits. -/
def detectWindow (P : EngineParams) (c : RedoxComponent)
    (st : EngineState) : Window :=
  let N := P.lenOfPulseSequence
  if positiveScanDirection P then
    let fwd := forwardScan N st.backwardKhalflife (timeBenchmark P * c.symCoef)
    let bwd := backwardScan N st.forwardKhalflife (timeBenchmark P * (1 - c.symCoef))
    ⟨fwd.getD 0, bwd.getD N, fwd.isSome || bwd.isSome⟩
  else
    let fwd := forwardScan N st.forwardKhalflife (timeBenchmark P * (1 - c.symCoef))
    let bwd := backwardScan N st.backwardKhalflife (timeBenchmark P * c.symCoef)
    ⟨fwd.getD 0, bwd.getD N, fwd.isSome || bwd.isSome⟩

/-! ### Loading discretization (redoxKinetics.cpp lines 133-136) -/

/-- Lines 133-134: `int loadingDivider = ceil(20*loading*1000000000);` then
`if (loadingDivider%2 != 0) ++loadingDivider;`. -/
def loadingDivider (loading : ℚ) : ℤ :=
  let d : ℤ := ⌈20 * loading * 1000000000⌉
  if d % 2 ≠ 0 then d + 1 else d

/-- Line 136: `double truncatedComponent = 2*loading/loadingDivider;`. -/
def truncatedComponent (loading : ℚ) : ℚ :=
  2 * loading / (loadingDivider loading : ℚ)

/-! ### Relaxation loop (redoxKinetics.cpp lines 142-227) -/

/-- Lines 142-146: recompute `Ksum` and `Kratio` on `0 ≤ j < len` from the
current rate-constant arrays (`Kratio[j]` uses the `Ksum[j]` just written). -/
def sumRatioKinetics (P : EngineParams) (st : EngineState) : EngineState :=
  let N := P.lenOfPulseSequence
  let kS : ℕ → ℚ := fun j =>
    if j < N then st.forwardK j + st.backwardK j else st.Ksum j
  { st with
    Ksum := kS
    Kratio := fun j => if j < N then st.backwardK j / kS j else st.Kratio j }

/-- The current march of lines 166-181 (repeated verbatim at lines 197-208):
starting from `Red0 = startingRedConcentration(overpotentials[min], g, z)`
(line 154, `z` truncated by the `double → int` conversion), for
`n = min+1, ..., max` write `cur[n] = z*f*(Red0*forwardK[n] -
(g-Red0)*backwardK[n])` and advance `Red0` through `instantaneousRedConc`.
Only the `cur` array is written. -/
def marchWindow (P : EngineParams) (c : RedoxComponent) (g : ℚ)
    (w : Window) (st : EngineState) : EngineState :=
  let red0 := startingRedConcentration P.aexp
    (st.overpotentials w.lookupMinTreshhold) g (truncTowardZero c.z)
  let idxs := List.range' (w.lookupMinTreshhold + 1)
    (w.lookupMaxTreshold - w.lookupMinTreshhold)
  let out := idxs.foldl
    (fun (acc : (ℕ → ℚ) × ℚ) n =>
      let current := c.z * f * (acc.2 * st.forwardK n - (g - acc.2) * st.backwardK n)
      (Function.update acc.1 n current,
       instantaneousRedConc P.aexp acc.2 g (st.Kratio n) (st.Ksum n) P.timePeriod))
    (st.cur, red0)
  { st with cur := out.1 }

/-- Lines 182-193 (even slice, "overcorrection pass"): for
`min ≤ m < max`, subtract `cur[m]*resistance` from
`overcorrectedPulseSequence[m]` and recompute `overpotentials`, `forwardK`,
`backwardK`, `Ksum`, `Kratio` at `m` from the new potential.  Each iteration
touches only index `m`, so the loop is a pointwise update. -/
def evenPassCorrection (P : EngineParams) (c : RedoxComponent)
    (w : Window) (st : EngineState) : EngineState :=
  let inWin : ℕ → Prop := fun m =>
    w.lookupMinTreshhold ≤ m ∧ m < w.lookupMaxTreshold
  let oc : ℕ → ℚ := fun m =>
    if inWin m then st.overcorrectedPulseSequence m - st.cur m * P.resistance
    else st.overcorrectedPulseSequence m
  let op : ℕ → ℚ := fun m =>
    if inWin m then oc m - c.redoxPot else st.overpotentials m
  let fK : ℕ → ℚ := fun m =>
    if inWin m then c.kineticConst * P.aexp (op m * FbyRT * c.z * c.symCoef)
    else st.forwardK m
  let bK : ℕ → ℚ := fun m =>
    if inWin m then c.kineticConst * P.aexp (-op m * FbyRT * c.z * (1 - c.symCoef))
    else st.backwardK m
  let kS : ℕ → ℚ := fun m =>
    if inWin m then fK m + bK m else st.Ksum m
  { st with
    overcorrectedPulseSequence := oc
    overpotentials := op
    forwardK := fK
    backwardK := bK
    Ksum := kS
    Kratio := fun m => if inWin m then bK m / kS m else st.Kratio m }

/-- Lines 210-224 (odd slice, "damped-averaging pass"): for `min ≤ m < max`,
set `averagedPulseSequence[m]` to the average of
`overcorrectedPulseSequence[m] - cur[m]*resistance` and
`overcorrectedPulseSequence[m]`, copy it into
`overcorrectedPulseSequence[m]`, and recompute the kinetic arrays at `m`
from the new `averagedPulseSequence[m]`. -/
def oddPassCorrection (P : EngineParams) (c : RedoxComponent)
    (w : Window) (st : EngineState) : EngineState :=
  let inWin : ℕ → Prop := fun m =>
    w.lookupMinTreshhold ≤ m ∧ m < w.lookupMaxTreshold
  let avg : ℕ → ℚ := fun m =>
    if inWin m then
      ((st.overcorrectedPulseSequence m - st.cur m * P.resistance)
        + st.overcorrectedPulseSequence m) / 2
    else st.averagedPulseSequence m
  let op : ℕ → ℚ := fun m =>
    if inWin m then avg m - c.redoxPot else st.overpotentials m
  let fK : ℕ → ℚ := fun m =>
    if inWin m then c.kineticConst * P.aexp (op m * FbyRT * c.z * c.symCoef)
    else st.forwardK m
  let bK : ℕ → ℚ := fun m =>
    if inWin m then c.kineticConst * P.aexp (-op m * FbyRT * c.z * (1 - c.symCoef))
    else st.backwardK m
  let kS : ℕ → ℚ := fun m =>
    if inWin m then fK m + bK m else st.Ksum m
  { st with
    averagedPulseSequence := avg
    overcorrectedPulseSequence := fun m =>
      if inWin m then avg m else st.overcorrectedPulseSequence m
    overpotentials := op
    forwardK := fK
    backwardK := bK
    Ksum := kS
    Kratio := fun m => if inWin m then bK m / kS m else st.Kratio m }

/-- One iteration `j` of the slice loop (lines 151-227): when no lookup
threshold was found the body mutates nothing; otherwise it marches the
current over the window and runs the even or odd resistive-correction pass
according to `j % 2`. -/
def processSlice (P : EngineParams) (c : RedoxComponent) (g : ℚ)
    (w : Window) (j : ℕ) (st : EngineState) : EngineState :=
  if w.LookupThresholdFound then
    if j % 2 = 0 then evenPassCorrection P c w (marchWindow P c g w st)
    else oddPassCorrection P c w (marchWindow P c g w st)
  else st

/-- One iteration of the component loop (lines 45-227): recompute the
kinetic arrays from the working potentials, detect the window, discretize
the loading, recompute `Ksum`/`Kratio`, then run `loadingDivider` slice
iterations. -/
def processComponent (P : EngineParams) (st : EngineState)
    (c : RedoxComponent) : EngineState :=
  let st1 := componentKinetics P c st
  let w := detectWindow P c st1
  let g := truncatedComponent c.loading
  let st2 := sumRatioKinetics P st1
  (List.range (loadingDivider c.loading).toNat).foldl
    (fun s j => processSlice P c g w j s) st2

/-- `redoxKineticsFull` (redoxKinetics.cpp lines 5-248): process the
components in order, then convert the working potential buffer to current by
Ohm's law (lines 230-234) and return it (the returned array has
`lenOfPulseSequence` entries). -/
def redoxKineticsFull (P : EngineParams) (components : List RedoxComponent)
    (h : UninitMem) : List ℚ :=
  let final := components.foldl (processComponent P) (initState P h)
  (List.range P.lenOfPulseSequence).map
    (fun i => (P.inputPulseSequence i - final.averagedPulseSequence i) / P.resistance)

/-! ### Concrete sample inputs used to exercise the embedding -/

/-- A minimal one-point run: `exp` modelled as the constant `1` (only ever
consulted at argument `0` in these runs, and `exp 0 = 1`), period `0.1` s,
resistance `100`, both potential sequences identically `0`. -/
def P0 : EngineParams where
  aexp := fun _ => 1
  timePeriod := 1/10
  resistance := 100
  lenOfPulseSequence := 1
  inputPulseSequence := fun _ => 0
  DLCcorrectedSequence := fun _ => 0

/-- Allocation contents fixed to `0` for concrete runs. -/
def h0 : UninitMem where
  overpotentials0 := fun _ => 0
  averaged0 := fun _ => 0
  overcorrected0 := fun _ => 0
  forwardK0 := fun _ => 0
  backwardK0 := fun _ => 0
  Ksum0 := fun _ => 0
  Kratio0 := fun _ => 0
  forwardKhalflife0 := fun _ => 0
  backwardKhalflife0 := fun _ => 0
  cur0 := fun _ => 0

/-- A single well-formed component: loading `1e-9`, `k0 = 1`, `E0 = 0`,
`α = 1/2`, `z = 1`. -/
def c1 : RedoxComponent where
  loading := 1/1000000000
  kineticConst := 1
  redoxPot := 0
  symCoef := 1/2
  z := 1

/-- Two-point input whose DLC-corrected sequence is `1, 0` on the valid
indices and holds `7` in the heap cell one past the end. -/
def P4 : EngineParams where
  aexp := fun _ => 1
  timePeriod := 1/10
  resistance := 100
  lenOfPulseSequence := 2
  inputPulseSequence := fun _ => 0
  DLCcorrectedSequence := fun i => if i = 0 then 1 else if i = 1 then 0 else 7

/-- `P0` with `resistance = 0` (invalid per the spec). -/
def Pbad : EngineParams := { P0 with resistance := 0 }

/-- A component with non-positive loading and a symmetry coefficient
outside `(0,1)` (both invalid per the spec). -/
def cbad : RedoxComponent where
  loading := 0
  kineticConst := 5
  redoxPot := 0
  symCoef := 2
  z := 1

/-! ### Helper lemmas -/

lemma foldl_id (F : EngineState → ℕ → EngineState) (hF : ∀ s j, F s j = s) :
    ∀ (l : List ℕ) (st : EngineState), l.foldl F st = st := by
  intro l
  induction l with
  | nil => intro st; rfl
  | cons a l ih => intro st; simp only [List.foldl_cons, hF]; exact ih st

lemma foldl_update_outside (valf nxtf : ((ℕ → ℚ) × ℚ) → ℕ → ℚ) (k : ℕ) :
    ∀ (l : List ℕ) (p : (ℕ → ℚ) × ℚ), k ∉ l →
      (l.foldl (fun acc n => (Function.update acc.1 n (valf acc n), nxtf acc n)) p).1 k
        = p.1 k := by
  intro l
  induction l with
  | nil => intro p _; rfl
  | cons a l ih =>
      intro p hk
      rw [List.foldl_cons, ih _ (fun hmem => hk (List.mem_cons_of_mem a hmem))]
      refine Function.update_noteq (fun he => hk ?_) _ _
      rw [he]
      exact List.mem_cons_self a l

/-- The current march mutates `cur` only at indices `min+1, ..., max`. -/
lemma marchWindow_cur_outside (P : EngineParams) (c : RedoxComponent) (g : ℚ)
    (w : Window) (st : EngineState) (k : ℕ)
    (hk : k ≤ w.lookupMinTreshhold ∨ w.lookupMaxTreshold < k) :
    (marchWindow P c g w st).cur k = st.cur k := by
  have hnot : k ∉ List.range' (w.lookupMinTreshhold + 1)
      (w.lookupMaxTreshold - w.lookupMinTreshhold) := by
    intro hmem
    rw [List.mem_range'_1] at hmem
    omega
  simp only [marchWindow]
  exact foldl_update_outside _ _ k _ _ hnot

/-- Neither correction pass nor either full-array kinetics recompute writes
the `cur` buffer. -/
lemma cur_untouched_outside_march (P : EngineParams) (c : RedoxComponent)
    (w : Window) (st : EngineState) :
    (evenPassCorrection P c w st).cur = st.cur ∧
    (oddPassCorrection P c w st).cur = st.cur ∧
    (componentKinetics P c st).cur = st.cur ∧
    (sumRatioKinetics P st).cur = st.cur := by
  refine ⟨rfl, rfl, rfl, rfl⟩

/-! ### Claim theorems -/

/-- C1. After all components are processed, the engine's returned trace has
length `lenOfPulseSequence`, and each entry `j` equals
`(inputPulseSequence[j] - averagedPulseSequence[j]) / resistance`, where
`averagedPulseSequence` is the working potential buffer left by the last
component's processing and starts as a copy of the DLC-corrected input. -/
theorem redoxKineticsFull_ohms_law (P : EngineParams)
    (comps : List RedoxComponent) (h : UninitMem) (j : ℕ)
    (hj : j < P.lenOfPulseSequence) :
    (redoxKineticsFull P comps h).length = P.lenOfPulseSequence ∧
    (initState P h).averagedPulseSequence j = P.DLCcorrectedSequence j ∧
    (redoxKineticsFull P comps h).getD j 0 =
      (P.inputPulseSequence j
        - (comps.foldl (processComponent P) (initState P h)).averagedPulseSequence j)
        / P.resistance := by
  refine ⟨?_, ?_, ?_⟩
  · simp [redoxKineticsFull]
  · simp [initState, hj]
  · simp only [redoxKineticsFull]
    rw [List.getD_eq_getElem?_getD, List.getElem?_map, List.getElem?_range hj]
    rfl

/-- C1 witness. -/
theorem redoxKineticsFull_ohms_law_witness :
    (redoxKineticsFull P0 [c1] h0).length = P0.lenOfPulseSequence ∧
    (initState P0 h0).averagedPulseSequence 0 = P0.DLCcorrectedSequence 0 ∧
    (redoxKineticsFull P0 [c1] h0).getD 0 0 =
      (P0.inputPulseSequence 0
        - ([c1].foldl (processComponent P0) (initState P0 h0)).averagedPulseSequence 0)
        / P0.resistance :=
  redoxKineticsFull_ohms_law P0 [c1] h0 0 (by decide)

/-- C3. When neither window-detection scan finds a qualifying index, the
component contributes nothing: `cur`, `averagedPulseSequence` and
`overcorrectedPulseSequence` are unchanged by that component's processing. -/
theorem window_not_found_frame (P : EngineParams) (c : RedoxComponent)
    (st : EngineState)
    (hnf : (detectWindow P c (componentKinetics P c st)).LookupThresholdFound
      = false) :
    (processComponent P st c).cur = st.cur ∧
    (processComponent P st c).averagedPulseSequence = st.averagedPulseSequence ∧
    (processComponent P st c).overcorrectedPulseSequence
      = st.overcorrectedPulseSequence := by
  have hslice : ∀ (s : EngineState) (j : ℕ),
      processSlice P c (truncatedComponent c.loading)
        (detectWindow P c (componentKinetics P c st)) j s = s := by
    intro s j
    simp [processSlice, hnf]
  have hfold := foldl_id _ hslice
    (List.range (loadingDivider c.loading).toNat)
    (sumRatioKinetics P (componentKinetics P c st))
  simp only [processComponent]
  rw [hfold]
  exact ⟨rfl, rfl, rfl⟩

/-- C3 witness: with `k0 = 2`, `α = 1/2`, period `0.1` s and a flat zero
potential sequence, both scans fail (`ln2/2 < 0.5`), and the component's
processing leaves all three buffers untouched. -/
theorem window_not_found_frame_witness :
    (processComponent P0 (initState P0 h0) { c1 with kineticConst := 2 }).cur
        = (initState P0 h0).cur ∧
    (processComponent P0 (initState P0 h0)
        { c1 with kineticConst := 2 }).averagedPulseSequence
      = (initState P0 h0).averagedPulseSequence ∧
    (processComponent P0 (initState P0 h0)
        { c1 with kineticConst := 2 }).overcorrectedPulseSequence
      = (initState P0 h0).overcorrectedPulseSequence :=
  window_not_found_frame P0 { c1 with kineticConst := 2 } (initState P0 h0)
    (by with_unfolding_all decide)

/-- C2. The engine performs no parameter validation: invoked with
`resistance = 0`, a non-positive loading and a symmetry coefficient outside
`(0,1)`, it still runs to completion and produces a full-length trace by
executing the final Ohm's-law division with divisor `resistance` (the
embedding is total because `redoxKineticsFull` has no error branch to
model; in C the division by `0.0` silently yields Inf/NaN). -/
theorem redoxKineticsFull_no_validation :
    Pbad.resistance = 0 ∧ cbad.loading = 0 ∧ cbad.symCoef = 2 ∧
    (redoxKineticsFull Pbad [cbad] h0).length = Pbad.lenOfPulseSequence ∧
    redoxKineticsFull Pbad [cbad] h0
      = (List.range Pbad.lenOfPulseSequence).map
          (fun i => (Pbad.inputPulseSequence i
            - ([cbad].foldl (processComponent Pbad)
                (initState Pbad h0)).averagedPulseSequence i)
            / Pbad.resistance) := by
  refine ⟨rfl, rfl, rfl, by simp [redoxKineticsFull], rfl⟩

/-- C4. The scan-direction flag compares `DLCcorrectedSequence[0]` with the
out-of-bounds element at index `lenOfPulseSequence`, not with the last
valid element: on `P4` (corrected sequence `1, 0`, heap cell past the end
`7`) the code computes `false` although the first value exceeds the last
valid value. -/
theorem positiveScanDirection_reads_past_end :
    positiveScanDirection P4 = false ∧
    P4.DLCcorrectedSequence 0 > P4.DLCcorrectedSequence (P4.lenOfPulseSequence - 1) ∧
    positiveScanDirection P4
      = decide (P4.DLCcorrectedSequence 0
          > P4.DLCcorrectedSequence P4.lenOfPulseSequence) := by
  refine ⟨by with_unfolding_all decide, by with_unfolding_all decide, rfl⟩

/-- C5. The backward window-detection scan (used in both direction branches)
probes index `lenOfPulseSequence` first — one past the last valid index of
the half-life arrays — on every run with a nonempty sequence, while the
forward scan probes exactly the valid indices `0, ..., N-1`. -/
theorem backward_scan_probes_out_of_bounds (N : ℕ) (halflife : ℕ → ℚ)
    (thr : ℚ) (hN : 1 ≤ N) :
    (backwardProbes N).head? = some N ∧
    N ∉ forwardProbes N ∧
    backwardScan N halflife thr
      = (backwardProbes N).find? (fun j => decide (halflife j > thr)) ∧
    forwardScan N halflife thr
      = (forwardProbes N).find? (fun j => decide (halflife j > thr)) ∧
    (∀ j ∈ forwardProbes N, j < N) := by
  obtain ⟨m, rfl⟩ : ∃ m, N = m + 1 :=
    ⟨N - 1, by omega⟩
  refine ⟨?_, ?_, rfl, rfl, ?_⟩
  · rw [backwardProbes, List.range'_concat]
    simp only [List.reverse_append, List.reverse_singleton,
      List.singleton_append, List.head?_cons, Option.some.injEq]
    omega
  · simp [forwardProbes]
  · intro j hj
    exact List.mem_range.1 hj

/-- C5 witness. -/
theorem backward_scan_probes_out_of_bounds_witness :
    (backwardProbes 3).head? = some 3 ∧
    3 ∉ forwardProbes 3 ∧
    backwardScan 3 (fun _ => 0) 0
      = (backwardProbes 3).find? (fun j => decide ((fun _ => (0:ℚ)) j > 0)) ∧
    forwardScan 3 (fun _ => 0) 0
      = (forwardProbes 3).find? (fun j => decide ((fun _ => (0:ℚ)) j > 0)) ∧
    (∀ j ∈ forwardProbes 3, j < 3) :=
  backward_scan_probes_out_of_bounds 3 (fun _ => 0) 0 (by decide)

/-- The code's round-to-even step (`if (d%2 != 0) ++d;`) equals rounding up
to the nearest even integer, i.e. `2 * ⌈d/2⌉`. -/
lemma if_odd_succ_eq_two_mul_ceil (d : ℤ) :
    (if d % 2 ≠ 0 then d + 1 else d) = 2 * ⌈(d : ℚ) / 2⌉ := by
  rcases Int.even_or_odd d with ⟨m, hm⟩ | ⟨m, hm⟩
  · subst hm
    have h2 : ¬((m + m) % 2 ≠ 0) := by omega
    have hdiv : ((m + m : ℤ) : ℚ) / 2 = (m : ℚ) := by push_cast; ring
    rw [if_neg h2, hdiv, Int.ceil_intCast]
    ring
  · subst hm
    have h2 : (2 * m + 1) % 2 ≠ 0 := by omega
    have hdiv : ((2 * m + 1 : ℤ) : ℚ) / 2 = (1 : ℚ) / 2 + (m : ℤ) := by
      push_cast; ring
    rw [if_pos h2, hdiv, Int.ceil_add_int]
    have hhalf : ⌈(1 : ℚ) / 2⌉ = 1 := by
      rw [Int.ceil_eq_iff] <;> norm_num
    rw [hhalf]
    ring

/-- C6. The discretization count is `⌈20·loading·1e9⌉` rounded up to the
nearest even integer, each slice has size `2·loading/D`, and for
`loading = 1e-9` the count is `20`. -/
theorem loadingDivider_even_ceiling (L : ℚ) (hL : 0 < L) :
    loadingDivider L = 2 * ⌈(⌈20 * L * 1000000000⌉ : ℚ) / 2⌉ ∧
    truncatedComponent L = 2 * L / (loadingDivider L : ℚ) ∧
    loadingDivider (1 / 1000000000) = 20 := by
  refine ⟨?_, rfl, by with_unfolding_all decide⟩
  simp only [loadingDivider]
  exact if_odd_succ_eq_two_mul_ceil _

/-- C6 witness. -/
theorem loadingDivider_even_ceiling_witness :
    0 < (1 / 1000000000 : ℚ) ∧
    (loadingDivider (1 / 1000000000)
        = 2 * ⌈(⌈20 * (1 / 1000000000 : ℚ) * 1000000000⌉ : ℚ) / 2⌉ ∧
      truncatedComponent (1 / 1000000000)
        = 2 * (1 / 1000000000 : ℚ) / (loadingDivider (1 / 1000000000) : ℚ) ∧
      loadingDivider (1 / 1000000000) = 20) :=
  ⟨by norm_num, loadingDivider_even_ceiling (1 / 1000000000) (by norm_num)⟩

/-- C7. The per-component kinetics recompute uses the Butler-Volmer forms
`forwardK[j] = k0·exp(overpotentials[j]·(F/(R·T))·z·α)` and
`backwardK[j] = k0·exp(-overpotentials[j]·(F/(R·T))·z·(1-α))` with
half-lives `ln2/K`, where the constants are exactly `R = 8.3145`,
`T = 295`, `F = 96485`, `F/(R·T) = 96485/(8.3145·295)` and
`ln2 = 0.69314718056`. -/
theorem componentKinetics_butler_volmer (P : EngineParams)
    (c : RedoxComponent) (st : EngineState) (j : ℕ)
    (hj : j < P.lenOfPulseSequence) :
    (componentKinetics P c st).overpotentials j
      = st.averagedPulseSequence j - c.redoxPot ∧
    (componentKinetics P c st).forwardK j
      = c.kineticConst * P.aexp ((componentKinetics P c st).overpotentials j
          * (96485 / (8.3145 * 295)) * c.z * c.symCoef) ∧
    (componentKinetics P c st).backwardK j
      = c.kineticConst * P.aexp (-(componentKinetics P c st).overpotentials j
          * (96485 / (8.3145 * 295)) * c.z * (1 - c.symCoef)) ∧
    (componentKinetics P c st).forwardKhalflife j
      = 0.69314718056 / (componentKinetics P c st).forwardK j ∧
    (componentKinetics P c st).backwardKhalflife j
      = 0.69314718056 / (componentKinetics P c st).backwardK j ∧
    r = 8.3145 ∧ t = 295 ∧ f = 96485 ∧ FbyRT = 96485 / (8.3145 * 295) ∧
    ln2 = 0.69314718056 := by
  have hF : FbyRT = 96485 / (8.3145 * 295) := by
    norm_num [FbyRT, f, rt, r, t]
  have hln : ln2 = 0.69314718056 := rfl
  refine ⟨?_, ?_, ?_, ?_, ?_, rfl, by norm_num [t], by norm_num [f], hF, hln⟩
  · simp [componentKinetics, hj]
  · simp [componentKinetics, hj, hF]
  · simp [componentKinetics, hj, hF]
    left
    congr 1
    ring
  · simp [componentKinetics, hj, hln]
  · simp [componentKinetics, hj, hln]

/-- C7 witness. -/
theorem componentKinetics_butler_volmer_witness :
    (0 : ℕ) < P0.lenOfPulseSequence ∧
    ((componentKinetics P0 c1 (initState P0 h0)).overpotentials 0
      = (initState P0 h0).averagedPulseSequence 0 - c1.redoxPot ∧
    (componentKinetics P0 c1 (initState P0 h0)).forwardK 0
      = c1.kineticConst * P0.aexp
          ((componentKinetics P0 c1 (initState P0 h0)).overpotentials 0
            * (96485 / (8.3145 * 295)) * c1.z * c1.symCoef) ∧
    (componentKinetics P0 c1 (initState P0 h0)).backwardK 0
      = c1.kineticConst * P0.aexp
          (-(componentKinetics P0 c1 (initState P0 h0)).overpotentials 0
            * (96485 / (8.3145 * 295)) * c1.z * (1 - c1.symCoef)) ∧
    (componentKinetics P0 c1 (initState P0 h0)).forwardKhalflife 0
      = 0.69314718056 / (componentKinetics P0 c1 (initState P0 h0)).forwardK 0 ∧
    (componentKinetics P0 c1 (initState P0 h0)).backwardKhalflife 0
      = 0.69314718056 / (componentKinetics P0 c1 (initState P0 h0)).backwardK 0 ∧
    r = 8.3145 ∧ t = 295 ∧ f = 96485 ∧ FbyRT = 96485 / (8.3145 * 295) ∧
    ln2 = 0.69314718056) :=
  ⟨by decide, componentKinetics_butler_volmer P0 c1 (initState P0 h0) 0 (by decide)⟩

/-- C8 counterexample: with a flat zero potential sequence, `α = 1/2`,
period `0.1` s (threshold `10·0.1·0.5 = 0.5`) and `exp 0 = 1`, the window is
found at `k0 = 1` (half-life `ln2 ≈ 0.693 > 0.5`) but not at the larger
`k0 = 2` (half-life `ln2/2 ≈ 0.347 < 0.5`): increasing the kinetic constant
grew the "window not found" region. -/
theorem detectWindow_not_monotone_in_kineticConst :
    c1.kineticConst
        < ({ c1 with kineticConst := 2 } : RedoxComponent).kineticConst ∧
    (detectWindow P0 c1
        (componentKinetics P0 c1 (initState P0 h0))).LookupThresholdFound
      = true ∧
    (detectWindow P0 { c1 with kineticConst := 2 }
        (componentKinetics P0 { c1 with kineticConst := 2 }
          (initState P0 h0))).LookupThresholdFound = false := by
  refine ⟨by norm_num [c1], by with_unfolding_all decide,
    by with_unfolding_all decide⟩

lemma div_gt_transfer (a E thr k kk : ℚ) (ha : 0 ≤ a) (hE : 0 < E)
    (hkk0 : 0 < kk) (hkk : kk ≤ k) (h : thr < a / (k * E)) :
    thr < a / (kk * E) := by
  have hkE : 0 < kk * E := mul_pos hkk0 hE
  have hle : kk * E ≤ k * E := mul_le_mul_of_nonneg_right hkk hE.le
  have := div_le_div_of_nonneg_left ha hkE hle
  linarith

/-- Decreasing the kinetic constant can only increase each forward
half-life comparison. -/
lemma fKhalflife_gt_transfer (P : EngineParams) (c : RedoxComponent)
    (st : EngineState) (k kk : ℚ) (hpos : ∀ x, 0 < P.aexp x)
    (hkk0 : 0 < kk) (hkk : kk ≤ k) (thr : ℚ) (j : ℕ)
    (h : thr < (componentKinetics P { c with kineticConst := k }
      st).forwardKhalflife j) :
    thr < (componentKinetics P { c with kineticConst := kk }
      st).forwardKhalflife j := by
  by_cases hj : j < P.lenOfPulseSequence
  · simp only [componentKinetics, if_pos hj] at h ⊢
    exact div_gt_transfer ln2 _ thr k kk (by norm_num [ln2]) (hpos _) hkk0 hkk h
  · simp only [componentKinetics, if_neg hj] at h ⊢
    exact h

/-- Decreasing the kinetic constant can only increase each backward
half-life comparison. -/
lemma bKhalflife_gt_transfer (P : EngineParams) (c : RedoxComponent)
    (st : EngineState) (k kk : ℚ) (hpos : ∀ x, 0 < P.aexp x)
    (hkk0 : 0 < kk) (hkk : kk ≤ k) (thr : ℚ) (j : ℕ)
    (h : thr < (componentKinetics P { c with kineticConst := k }
      st).backwardKhalflife j) :
    thr < (componentKinetics P { c with kineticConst := kk }
      st).backwardKhalflife j := by
  by_cases hj : j < P.lenOfPulseSequence
  · simp only [componentKinetics, if_pos hj] at h ⊢
    exact div_gt_transfer ln2 _ thr k kk (by norm_num [ln2]) (hpos _) hkk0 hkk h
  · simp only [componentKinetics, if_neg hj] at h ⊢
    exact h

lemma find?_isSome_transfer (probes : List ℕ) (half hf : ℕ → ℚ) (thr : ℚ)
    (himp : ∀ j, thr < half j → thr < hf j)
    (h : (probes.find? (fun j => decide (half j > thr))).isSome = true) :
    (probes.find? (fun j => decide (hf j > thr))).isSome = true := by
  rw [List.find?_isSome] at h ⊢
  obtain ⟨x, hmem, hx⟩ := h
  exact ⟨x, hmem, decide_eq_true (himp x (of_decide_eq_true hx))⟩

/-- C8 amended. Window detection is antitone in the kinetic constant: if
the window is found at rate constant `k`, it is also found at every
`0 < kk ≤ k` (so increasing `kineticConstant` can only grow or keep the
"window not found" region). -/
theorem detectWindow_antitone_in_kineticConst (P : EngineParams)
    (st : EngineState) (c : RedoxComponent) (k kk : ℚ)
    (hpos : ∀ x, 0 < P.aexp x) (hkk0 : 0 < kk) (hkk : kk ≤ k)
    (hfound : (detectWindow P { c with kineticConst := k }
        (componentKinetics P { c with kineticConst := k }
          st)).LookupThresholdFound = true) :
    (detectWindow P { c with kineticConst := kk }
        (componentKinetics P { c with kineticConst := kk }
          st)).LookupThresholdFound = true := by
  simp only [detectWindow] at hfound ⊢
  by_cases hdir : positiveScanDirection P = true
  · simp only [hdir, if_true, Bool.or_eq_true] at hfound ⊢
    rcases hfound with hfwd | hbwd
    · left
      exact find?_isSome_transfer _ _ _ _
        (fun j => bKhalflife_gt_transfer P c st k kk hpos hkk0 hkk _ j) hfwd
    · right
      exact find?_isSome_transfer _ _ _ _
        (fun j => fKhalflife_gt_transfer P c st k kk hpos hkk0 hkk _ j) hbwd
  · simp only [Bool.not_eq_true] at hdir
    simp only [hdir, Bool.false_eq_true, if_false, Bool.or_eq_true]
      at hfound ⊢
    rcases hfound with hfwd | hbwd
    · left
      exact find?_isSome_transfer _ _ _ _
        (fun j => fKhalflife_gt_transfer P c st k kk hpos hkk0 hkk _ j) hfwd
    · right
      exact find?_isSome_transfer _ _ _ _
        (fun j => bKhalflife_gt_transfer P c st k kk hpos hkk0 hkk _ j) hbwd

/-- C8 amended witness. -/
theorem detectWindow_antitone_in_kineticConst_witness :
    (∀ x : ℚ, 0 < P0.aexp x) ∧ (0 : ℚ) < 1/2 ∧ (1/2 : ℚ) ≤ 1 ∧
    (detectWindow P0 { c1 with kineticConst := 1 }
        (componentKinetics P0 { c1 with kineticConst := 1 }
          (initState P0 h0))).LookupThresholdFound = true ∧
    (detectWindow P0 { c1 with kineticConst := 1/2 }
        (componentKinetics P0 { c1 with kineticConst := 1/2 }
          (initState P0 h0))).LookupThresholdFound = true :=
  ⟨fun _ => one_pos, by norm_num, by norm_num, by with_unfolding_all decide,
   detectWindow_antitone_in_kineticConst P0 (initState P0 h0) c1 1 (1/2)
     (fun _ => one_pos) (by norm_num) (by norm_num)
     (by with_unfolding_all decide)⟩

/-- C9. Both DLC filters satisfy `corrected[0] = raw[0]` and
`corrected[i] = corrected[i-1] + (raw[i] - corrected[i-1])·(1 - exp(-Δt/(R·C)))`
for `1 ≤ i < N` (with `Δt = pulse_time/npp` in the pulse variant), and both
companion current functions return `(raw[i] - corrected[i])/R` on `[0,N)`. -/
theorem dlc_correction_recurrence (aexp : ℚ → ℚ) (R C dt pulse_time : ℚ)
    (npp : ℤ) (raw : ℕ → ℚ) (N : ℕ) (hN : 1 ≤ N) (i : ℕ) (h1 : 1 ≤ i)
    (hiN : i < N) (j : ℕ) (hjN : j < N) :
    dlcCorrectedCVsequence aexp R C dt raw 0 = raw 0 ∧
    dlcCorrectedCVsequence aexp R C dt raw i
      = dlcCorrectedCVsequence aexp R C dt raw (i - 1)
        + (raw i - dlcCorrectedCVsequence aexp R C dt raw (i - 1))
          * (1 - aexp (-(dt / (R * C)))) ∧
    dlcCurrentCV R raw (dlcCorrectedCVsequence aexp R C dt raw) j
      = (raw j - dlcCorrectedCVsequence aexp R C dt raw j) / R ∧
    swvDLCCorrectedInputArray aexp pulse_time R C raw npp 0 = raw 0 ∧
    swvDLCCorrectedInputArray aexp pulse_time R C raw npp i
      = swvDLCCorrectedInputArray aexp pulse_time R C raw npp (i - 1)
        + (raw i - swvDLCCorrectedInputArray aexp pulse_time R C raw npp (i - 1))
          * (1 - aexp (-(pulse_time / (npp : ℚ)) / (R * C))) ∧
    swvDLCcurrent R raw
        (swvDLCCorrectedInputArray aexp pulse_time R C raw npp) j
      = (raw j - swvDLCCorrectedInputArray aexp pulse_time R C raw npp j) / R := by
  obtain ⟨m, rfl⟩ : ∃ m, i = m + 1 := ⟨i - 1, by omega⟩
  refine ⟨rfl, ?_, rfl, rfl, ?_, rfl⟩
  · simp [dlcCorrectedCVsequence, cvDecayTerm]
  · simp [swvDLCCorrectedInputArray, swvDecayTerm]

/-- C9 witness. -/
theorem dlc_correction_recurrence_witness :
    (1 : ℕ) ≤ 2 ∧ (1 : ℕ) ≤ 1 ∧ (1 : ℕ) < 2 ∧ (0 : ℕ) < 2 ∧
    (dlcCorrectedCVsequence (fun x => x) 2 3 5 (fun n => n) 0 = (fun n => (n : ℚ)) 0 ∧
    dlcCorrectedCVsequence (fun x => x) 2 3 5 (fun n => n) 1
      = dlcCorrectedCVsequence (fun x => x) 2 3 5 (fun n => n) (1 - 1)
        + ((fun n => (n : ℚ)) 1
            - dlcCorrectedCVsequence (fun x => x) 2 3 5 (fun n => n) (1 - 1))
          * (1 - (fun x => (x : ℚ)) (-(5 / (2 * 3)))) ∧
    dlcCurrentCV 2 (fun n => n) (dlcCorrectedCVsequence (fun x => x) 2 3 5 (fun n => n)) 0
      = ((fun n => (n : ℚ)) 0
          - dlcCorrectedCVsequence (fun x => x) 2 3 5 (fun n => n) 0) / 2 ∧
    swvDLCCorrectedInputArray (fun x => x) 7 2 3 (fun n => n) 4 0 = (fun n => (n : ℚ)) 0 ∧
    swvDLCCorrectedInputArray (fun x => x) 7 2 3 (fun n => n) 4 1
      = swvDLCCorrectedInputArray (fun x => x) 7 2 3 (fun n => n) 4 (1 - 1)
        + ((fun n => (n : ℚ)) 1
            - swvDLCCorrectedInputArray (fun x => x) 7 2 3 (fun n => n) 4 (1 - 1))
          * (1 - (fun x => (x : ℚ)) (-(7 / ((4 : ℤ) : ℚ)) / (2 * 3))) ∧
    swvDLCcurrent 2 (fun n => n)
        (swvDLCCorrectedInputArray (fun x => x) 7 2 3 (fun n => n) 4) 0
      = ((fun n => (n : ℚ)) 0
          - swvDLCCorrectedInputArray (fun x => x) 7 2 3 (fun n => n) 4 0) / 2) :=
  ⟨by decide, by decide, by decide, by decide,
   dlc_correction_recurrence (fun x => x) 2 3 5 7 4 (fun n => n) 2
     (by decide) 1 (by decide) (by decide) 0 (by decide)⟩

lemma evenPass_march_oc_min (P : EngineParams) (c : RedoxComponent) (g : ℚ)
    (w : Window) (st : EngineState)
    (hmm : w.lookupMinTreshhold < w.lookupMaxTreshold) :
    (evenPassCorrection P c w
        (marchWindow P c g w st)).overcorrectedPulseSequence
        w.lookupMinTreshhold
      = st.overcorrectedPulseSequence w.lookupMinTreshhold
        - st.cur w.lookupMinTreshhold * P.resistance := by
  have hcur := marchWindow_cur_outside P c g w st w.lookupMinTreshhold
    (Or.inl le_rfl)
  simp only [evenPassCorrection]
  rw [if_pos ⟨le_rfl, hmm⟩, hcur]
  rfl

/-- C10. The per-step current buffer `cur` is zeroed once at run start and
written only by the current march, which touches indices `min+1, ..., max`
exclusively; the even-pass resistive correction runs over `min ≤ m < max`,
so at `m = min` it consumes the `cur[min]` held before the slice's march —
`0` for the first slice of the first component (making that correction a
no-op at `min`), and otherwise whatever earlier slices or components left
there. -/
theorem cur_buffer_staleness (P : EngineParams) (h : UninitMem)
    (c : RedoxComponent) (g : ℚ) (w : Window) (st : EngineState) (k : ℕ)
    (hmm : w.lookupMinTreshhold < w.lookupMaxTreshold)
    (hk : k ≤ w.lookupMinTreshhold ∨ w.lookupMaxTreshold < k)
    (hfound : w.LookupThresholdFound = true)
    (hminN : w.lookupMinTreshhold < P.lenOfPulseSequence) :
    (initState P h).cur w.lookupMinTreshhold = 0 ∧
    (marchWindow P c g w st).cur k = st.cur k ∧
    (marchWindow P c g w st).cur w.lookupMinTreshhold
      = st.cur w.lookupMinTreshhold ∧
    (evenPassCorrection P c w st).cur = st.cur ∧
    (oddPassCorrection P c w st).cur = st.cur ∧
    (componentKinetics P c st).cur = st.cur ∧
    (sumRatioKinetics P st).cur = st.cur ∧
    (evenPassCorrection P c w
        (marchWindow P c g w st)).overcorrectedPulseSequence
        w.lookupMinTreshhold
      = st.overcorrectedPulseSequence w.lookupMinTreshhold
        - st.cur w.lookupMinTreshhold * P.resistance ∧
    (processSlice P c g w 0
        (sumRatioKinetics P (componentKinetics P c
          (initState P h)))).overcorrectedPulseSequence w.lookupMinTreshhold
      = (sumRatioKinetics P (componentKinetics P c
          (initState P h))).overcorrectedPulseSequence w.lookupMinTreshhold := by
  have h0 : (sumRatioKinetics P (componentKinetics P c
      (initState P h))).cur w.lookupMinTreshhold = 0 := by
    show (initState P h).cur w.lookupMinTreshhold = 0
    simp [initState, hminN]
  refine ⟨by simp [initState, hminN],
    marchWindow_cur_outside P c g w st k hk,
    marchWindow_cur_outside P c g w st _ (Or.inl le_rfl),
    rfl, rfl, rfl, rfl,
    evenPass_march_oc_min P c g w st hmm, ?_⟩
  simp only [processSlice, hfound, if_true, Nat.zero_mod]
  rw [evenPass_march_oc_min P c g w _ hmm, h0]
  ring

/-- C10 witness. -/
theorem cur_buffer_staleness_witness :
    ((⟨0, 1, true⟩ : Window).lookupMinTreshhold
        < (⟨0, 1, true⟩ : Window).lookupMaxTreshold) ∧
    ((2 : ℕ) ≤ (⟨0, 1, true⟩ : Window).lookupMinTreshhold
      ∨ (⟨0, 1, true⟩ : Window).lookupMaxTreshold < 2) ∧
    (⟨0, 1, true⟩ : Window).LookupThresholdFound = true ∧
    (⟨0, 1, true⟩ : Window).lookupMinTreshhold < P0.lenOfPulseSequence ∧
    ((initState P0 h0).cur 0 = 0 ∧
      (marchWindow P0 c1 1 ⟨0, 1, true⟩ (initState P0 h0)).cur 2
        = (initState P0 h0).cur 2 ∧
      (marchWindow P0 c1 1 ⟨0, 1, true⟩ (initState P0 h0)).cur 0
        = (initState P0 h0).cur 0 ∧
      (evenPassCorrection P0 c1 ⟨0, 1, true⟩ (initState P0 h0)).cur
        = (initState P0 h0).cur ∧
      (oddPassCorrection P0 c1 ⟨0, 1, true⟩ (initState P0 h0)).cur
        = (initState P0 h0).cur ∧
      (componentKinetics P0 c1 (initState P0 h0)).cur = (initState P0 h0).cur ∧
      (sumRatioKinetics P0 (initState P0 h0)).cur = (initState P0 h0).cur ∧
      (evenPassCorrection P0 c1 ⟨0, 1, true⟩
          (marchWindow P0 c1 1 ⟨0, 1, true⟩
            (initState P0 h0))).overcorrectedPulseSequence 0
        = (initState P0 h0).overcorrectedPulseSequence 0
          - (initState P0 h0).cur 0 * P0.resistance ∧
      (processSlice P0 c1 1 ⟨0, 1, true⟩ 0
          (sumRatioKinetics P0 (componentKinetics P0 c1
            (initState P0 h0)))).overcorrectedPulseSequence 0
        = (sumRatioKinetics P0 (componentKinetics P0 c1
            (initState P0 h0))).overcorrectedPulseSequence 0) := by
  refine ⟨by decide, Or.inr (by decide), rfl, by decide, ?_⟩
  have := cur_buffer_staleness P0 h0 c1 1 ⟨0, 1, true⟩ (initState P0 h0) 2
    (by decide) (Or.inr (by decide)) rfl (by decide)
  simpa using this

end RedoxPySolid
